import Mathlib

/-!
Verification of the cart-pole REINFORCE demo (tfjs-examples).

Shallow embedding of the algorithmic core:
  * the reward processor (`discountRewards`, mean/std normalization) from
    `policyNetwork` (src/unnamed/part_000, lines 255-297);
  * the gradient aggregator (`scaleAndAverageGradients`, lines 313-345);
  * the per-episode rollout control flow of `PolicyNetwork.train`
    (lines 95-133);
  * the cart-pole physics simulator `CartPole` (src/cart-pole/ui.ts,
    lines 379-469);
  * the `SaveablePolicyNetwork` construction modes (ui.ts, lines 583-599);
  * the training-configuration validation of the train-button handler
    (ui.ts, lines 196-215);
  * the cross-entropy label construction of
    `getGradientsAndSaveActions` (part_000, lines 163-175).

Machine floats are modelled by exact fields (`ℚ` where everything is
rational, `ℝ` where the source takes square roots or trigonometric
functions).  Tensors are modelled by (nested) lists; a 1-D tensor is a
`List`, a stack of per-step parameter gradients is a `List (List _)` with
the step axis first, matching `tf.stack` / `tf.concat` / axis-0 `tf.mean`.
-/

set_option maxHeartbeats 1000000

namespace CartPoleRL

/-! ### Reward processor (part_000 lines 255-264, `discountRewards`) -/

/-- Right-to-left discounted cumulative rewards.  The source iterates from
the last index down with `prev = 0` initially and
`current = discountRate * prev + rewards[i]`; structurally this is the
recursion below, where the head of the already-discounted tail plays the
role of `prev` (`0` when the tail is empty). -/
def discountRewards {K : Type} [Field K] : List K → K → List K
  | [], _ => []
  | x :: rest, rate =>
      (rate * (discountRewards rest rate).headD 0 + x) :: discountRewards rest rate

/-- Mean of a list of reals, as computed by `tf.mean` on a 1-D tensor. -/
noncomputable def sampleMean (xs : List ℝ) : ℝ := xs.sum / xs.length

/-- Population variance (divide by count, not count-1), as computed by
`tf.mean(tf.square(concatenated.sub(mean)))` in the source. -/
noncomputable def popVariance (xs : List ℝ) : ℝ :=
  (xs.map (fun v => (v - sampleMean xs) ^ 2)).sum / xs.length

/-- Population standard deviation, `tf.sqrt` of the population variance. -/
noncomputable def popStd (xs : List ℝ) : ℝ := Real.sqrt (popVariance xs)

/-- Normalization step of `discountAndNormalizeRewards`
(part_000 lines 289-295): flatten all discounted sequences
(`tf.concat(discounted)`), take the global mean and population standard
deviation, and map each episode through `(v - mean) / std`. -/
noncomputable def normalizeRewards (discounted : List (List ℝ)) : List (List ℝ) :=
  let m := sampleMean discounted.flatten
  let s := popStd discounted.flatten
  discounted.map (fun rs => rs.map (fun v => (v - m) / s))

/-- `discountAndNormalizeRewards` (part_000 lines 280-297): discount each
episode independently, then normalize globally. -/
noncomputable def discountAndNormalizeRewards
    (rewardSequences : List (List ℝ)) (discountRate : ℝ) : List (List ℝ) :=
  normalizeRewards (rewardSequences.map (fun s => discountRewards s discountRate))

lemma discountRewards_length {K : Type} [Field K] (rs : List K) (r : K) :
    (discountRewards rs r).length = rs.length := by
  induction rs with
  | nil => rfl
  | cons x rest ih => simp [discountRewards, ih]

lemma discountRewards_getLast? {K : Type} [Field K] (rs : List K) (r : K) :
    (discountRewards rs r).getLast? = rs.getLast? := by
  induction rs with
  | nil => rfl
  | cons x rest ih =>
      cases rest with
      | nil => simp [discountRewards]
      | cons y t =>
          rw [show discountRewards (x :: y :: t) r =
                (r * (discountRewards (y :: t) r).headD 0 + x) ::
                  discountRewards (y :: t) r from rfl]
          rw [show discountRewards (y :: t) r =
                (r * (discountRewards t r).headD 0 + y) ::
                  discountRewards t r from rfl]
          rw [List.getLast?_cons_cons, List.getLast?_cons_cons]
          rw [show (r * (discountRewards t r).headD 0 + y) ::
                discountRewards t r = discountRewards (y :: t) r from rfl]
          exact ih

lemma discountRewards_recurrence {K : Type} [Field K] (rs : List K) (r : K) :
    ∀ i, i + 1 < rs.length →
      (discountRewards rs r).getD i 0 =
        rs.getD i 0 + r * (discountRewards rs r).getD (i + 1) 0 := by
  induction rs with
  | nil => intro i hi; simp at hi
  | cons x rest ih =>
      intro i hi
      cases i with
      | zero =>
          cases rest with
          | nil => simp at hi
          | cons y t =>
              rw [show discountRewards (x :: y :: t) r =
                    (r * (discountRewards (y :: t) r).headD 0 + x) ::
                      discountRewards (y :: t) r from rfl]
              rw [show discountRewards (y :: t) r =
                    (r * (discountRewards t r).headD 0 + y) ::
                      discountRewards t r from rfl]
              simp [add_comm]
      | succ j =>
          have hj : j + 1 < rest.length := by
            simpa using hi
          have := ih j hj
          simpa [discountRewards] using this

lemma discountRewards_ones_headD {K : Type} [Field K] (r : K) (hr : r ≠ 1) :
    ∀ n : ℕ, (discountRewards (List.replicate n (1 : K)) r).headD 0 =
      (1 - r ^ n) / (1 - r) := by
  have h1r : (1 : K) - r ≠ 0 := sub_ne_zero.mpr (Ne.symm hr)
  intro n
  induction n with
  | zero => simp [discountRewards]
  | succ m ih =>
      rw [List.replicate_succ]
      rw [show discountRewards ((1 : K) :: List.replicate m 1) r =
            (r * (discountRewards (List.replicate m 1) r).headD 0 + 1) ::
              discountRewards (List.replicate m 1) r from rfl]
      simp only [List.headD_cons, ih]
      field_simp
      ring

/-- C1.  `discountRewards` returns a sequence of the same length satisfying
the right-to-left recurrence `d[i] = rewards[i] + rate * d[i+1]` with
`d[last] = rewards[last]`, and on an all-ones sequence of length `n` it
yields `d[0] = (1 - r^n) / (1 - r)`. -/
theorem discountRewards_spec (rs : List ℝ) (r : ℝ) (h0 : 0 < r) (h1 : r < 1) :
    (discountRewards rs r).length = rs.length ∧
    (discountRewards rs r).getLast? = rs.getLast? ∧
    (∀ i, i + 1 < rs.length →
      (discountRewards rs r).getD i 0 =
        rs.getD i 0 + r * (discountRewards rs r).getD (i + 1) 0) ∧
    (∀ n : ℕ, (discountRewards (List.replicate n (1 : ℝ)) r).headD 0 =
      (1 - r ^ n) / (1 - r)) :=
  ⟨discountRewards_length rs r, discountRewards_getLast? rs r,
    discountRewards_recurrence rs r,
    discountRewards_ones_headD r (ne_of_lt h1)⟩

/-- Witness for C1 at `rewards = [1, 1, 1]`, `rate = 1/2`. -/
theorem discountRewards_spec_witness :
    (discountRewards [(1 : ℝ), 1, 1] (1 / 2)).length = 3 ∧
    (0 : ℝ) < 1 / 2 ∧ (1 / 2 : ℝ) < 1 := by
  refine ⟨?_, by norm_num, by norm_num⟩
  have h := (discountRewards_spec [(1 : ℝ), 1, 1] (1 / 2)
    (by norm_num) (by norm_num)).1
  simpa using h

lemma sum_map_div (l : List ℝ) (f : ℝ → ℝ) (c : ℝ) :
    (l.map (fun v => f v / c)).sum = (l.map f).sum / c := by
  induction l with
  | nil => simp
  | cons x t ih => simp only [List.map_cons, List.sum_cons, ih]; ring

lemma sum_map_sub_const (l : List ℝ) (c : ℝ) :
    (l.map (fun v => v - c)).sum = l.sum - l.length * c := by
  induction l with
  | nil => simp
  | cons x t ih =>
      simp only [List.map_cons, List.sum_cons, ih, List.length_cons]
      push_cast
      ring

lemma popVariance_nonneg (xs : List ℝ) : 0 ≤ popVariance xs := by
  apply div_nonneg
  · apply List.sum_nonneg
    intro x hx
    simp only [List.mem_map] at hx
    obtain ⟨v, _, rfl⟩ := hx
    positivity
  · positivity

/-- C2.  When the flattened discounted rewards have nonzero population
variance, `normalizeRewards` maps every flattened value through
`(v - mean) / std` (global mean, population standard deviation), keeps the
episode structure, and the flattened output has sample mean 0 and
population standard deviation 1. -/
theorem normalizeRewards_spec (ds : List (List ℝ))
    (hvar : popVariance ds.flatten ≠ 0) :
    (normalizeRewards ds).flatten =
      ds.flatten.map
        (fun v => (v - sampleMean ds.flatten) / popStd ds.flatten) ∧
    (normalizeRewards ds).length = ds.length ∧
    sampleMean (normalizeRewards ds).flatten = 0 ∧
    popStd (normalizeRewards ds).flatten = 1 := by
  have hVnonneg : 0 ≤ popVariance ds.flatten := popVariance_nonneg ds.flatten
  have hVpos : 0 < popVariance ds.flatten := lt_of_le_of_ne hVnonneg (Ne.symm hvar)
  have hσpos : 0 < popStd ds.flatten := Real.sqrt_pos.mpr hVpos
  have hσne : popStd ds.flatten ≠ 0 := ne_of_gt hσpos
  have hσsq : popStd ds.flatten ^ 2 = popVariance ds.flatten := Real.sq_sqrt hVnonneg
  have hσsqne : popStd ds.flatten ^ 2 ≠ 0 := by rw [hσsq]; exact hvar
  have hlen0 : (ds.flatten.length : ℝ) ≠ 0 := by
    intro h0
    apply hvar
    have hz : ds.flatten.length = 0 := by exact_mod_cast h0
    have hnil : ds.flatten = [] := List.length_eq_zero.mp hz
    simp [popVariance, hnil]
  have hflat : (normalizeRewards ds).flatten =
      ds.flatten.map
        (fun v => (v - sampleMean ds.flatten) / popStd ds.flatten) := by
    simp only [normalizeRewards]
    exact (List.map_flatten _ ds).symm
  have hsum : ds.flatten.sum = (ds.flatten.length : ℝ) * sampleMean ds.flatten := by
    rw [sampleMean, mul_comm, div_mul_cancel₀ _ hlen0]
  have hcsum : (ds.flatten.map (fun v => v - sampleMean ds.flatten)).sum = 0 := by
    rw [sum_map_sub_const, hsum]
    ring
  have houtsum :
      (ds.flatten.map
        (fun v => (v - sampleMean ds.flatten) / popStd ds.flatten)).sum = 0 := by
    rw [sum_map_div ds.flatten (fun v => v - sampleMean ds.flatten) (popStd ds.flatten),
      hcsum, zero_div]
  have hlenout :
      (ds.flatten.map
        (fun v => (v - sampleMean ds.flatten) / popStd ds.flatten)).length =
        ds.flatten.length := List.length_map _ _
  have hmean_out : sampleMean (normalizeRewards ds).flatten = 0 := by
    rw [hflat, sampleMean, houtsum, zero_div]
  have hVsum :
      (ds.flatten.map (fun v => (v - sampleMean ds.flatten) ^ 2)).sum =
        popVariance ds.flatten * (ds.flatten.length : ℝ) := by
    rw [popVariance, div_mul_cancel₀ _ hlen0]
  have hsq_out :
      ((normalizeRewards ds).flatten.map (fun v => (v - 0) ^ 2)).sum =
        (ds.flatten.length : ℝ) := by
    rw [hflat, List.map_map]
    have hfun : ((fun v => (v - 0) ^ 2) ∘
          fun v => (v - sampleMean ds.flatten) / popStd ds.flatten) =
        fun v => ((v - sampleMean ds.flatten) ^ 2) / (popStd ds.flatten ^ 2) := by
      funext v
      simp [Function.comp, div_pow]
    rw [hfun]
    rw [sum_map_div ds.flatten (fun v => (v - sampleMean ds.flatten) ^ 2)
      (popStd ds.flatten ^ 2), hVsum, hσsq]
    exact mul_div_cancel_left₀ _ hvar
  have hvar_out : popVariance (normalizeRewards ds).flatten = 1 := by
    rw [popVariance, hmean_out, hsq_out]
    rw [hflat, hlenout]
    exact div_self hlen0
  refine ⟨hflat, by simp [normalizeRewards], hmean_out, ?_⟩
  rw [popStd, hvar_out, Real.sqrt_one]

/-- Witness for C2 at the discounted batch `[[1, -1]]`. -/
theorem normalizeRewards_spec_witness :
    popVariance ([[(1 : ℝ), -1]].flatten) ≠ 0 ∧
    sampleMean (normalizeRewards [[(1 : ℝ), -1]]).flatten = 0 := by
  have hv : popVariance ([[(1 : ℝ), -1]].flatten) ≠ 0 := by
    norm_num [popVariance, sampleMean]
  exact ⟨hv, (normalizeRewards_spec [[(1 : ℝ), -1]] hv).2.2.1⟩

/-! ### Episode roller (part_000 lines 95-133, inner loop of `train`) -/

/-- Reward sequence produced by the per-episode loop of
`PolicyNetwork.train`.  The loop runs for at most `maxStepsPerGame`
iterations; each iteration pushes one gradient snapshot, applies the
sampled action, and then pushes reward `0` and breaks when the simulator
reports done, or pushes reward `1` and continues.  The evolving
simulator/policy interaction is abstracted by the list `dones` of the
per-step `isDone` results, whose length is `maxStepsPerGame`. -/
def rollEpisodeRewards : List Bool → List ℕ
  | [] => []
  | d :: rest => if d then [0] else 1 :: rollEpisodeRewards rest

/-- Number of gradient snapshots pushed by the same loop: exactly one per
iteration, pushed before the `isDone` test. -/
def rollEpisodeGradCount : List Bool → ℕ
  | [] => 0
  | d :: rest => if d then 1 else 1 + rollEpisodeGradCount rest

lemma rollEpisodeGradCount_eq_length (ds : List Bool) :
    rollEpisodeGradCount ds = (rollEpisodeRewards ds).length := by
  induction ds with
  | nil => rfl
  | cons d rest ih =>
      by_cases hd : d <;>
        simp [rollEpisodeRewards, rollEpisodeGradCount, hd, ih] <;> omega

lemma rollEpisodeRewards_length_le (ds : List Bool) :
    (rollEpisodeRewards ds).length ≤ ds.length := by
  induction ds with
  | nil => simp [rollEpisodeRewards]
  | cons d rest ih =>
      by_cases hd : d <;> simp [rollEpisodeRewards, hd]
      omega

lemma rollEpisodeRewards_all_false (ds : List Bool)
    (h : ∀ d ∈ ds, d = false) :
    rollEpisodeRewards ds = List.replicate ds.length 1 := by
  induction ds with
  | nil => rfl
  | cons d rest ih =>
      have hd : d = false := h d (by simp)
      have hrest : ∀ x ∈ rest, x = false := fun x hx => h x (by simp [hx])
      simp [rollEpisodeRewards, hd, ih hrest, List.replicate_succ]

lemma rollEpisodeRewards_first_done (ds : List Bool) :
    ∀ k, k < ds.length → ds.getD k false = true →
      (∀ j, j < k → ds.getD j true = false) →
      rollEpisodeRewards ds = List.replicate k 1 ++ [0] := by
  induction ds with
  | nil => intro k hk; simp at hk
  | cons d rest ih =>
      intro k hk hdone hprev
      cases k with
      | zero =>
          have hd : d = true := by simpa using hdone
          simp [rollEpisodeRewards, hd]
      | succ m =>
          have hd : d = false := by
            have := hprev 0 (Nat.succ_pos m)
            simpa using this
          have hm : m < rest.length := by simpa using hk
          have hmdone : rest.getD m false = true := by simpa using hdone
          have hmprev : ∀ j, j < m → rest.getD j true = false := by
            intro j hj
            have := hprev (j + 1) (by omega)
            simpa using this
          simp [rollEpisodeRewards, hd, ih m hm hmdone hmprev,
            List.replicate_succ]

/-- C3.  The per-episode loop pushes reward `0` and stops at the first
step whose `isDone` is true, pushes reward `1` otherwise, stops at the
step cap with no extra reward, pushes exactly one gradient snapshot per
reward, and with `maxStepsPerGame = 1` always produces a reward sequence
of length exactly 1. -/
theorem rollEpisode_spec (dones : List Bool) :
    rollEpisodeGradCount dones = (rollEpisodeRewards dones).length ∧
    (rollEpisodeRewards dones).length ≤ dones.length ∧
    ((∀ d ∈ dones, d = false) →
      rollEpisodeRewards dones = List.replicate dones.length 1) ∧
    (∀ k, k < dones.length → dones.getD k false = true →
      (∀ j, j < k → dones.getD j true = false) →
      rollEpisodeRewards dones = List.replicate k 1 ++ [0]) ∧
    (dones.length = 1 → (rollEpisodeRewards dones).length = 1) := by
  refine ⟨rollEpisodeGradCount_eq_length dones,
    rollEpisodeRewards_length_le dones,
    rollEpisodeRewards_all_false dones,
    rollEpisodeRewards_first_done dones, ?_⟩
  intro h1
  obtain ⟨d, rfl⟩ := List.length_eq_one.mp h1
  by_cases hd : d <;> simp [rollEpisodeRewards, hd]

/-- Witness for C3: the episode whose simulator reports done at the
second step yields rewards `[1, 0]`. -/
theorem rollEpisode_spec_witness :
    rollEpisodeRewards [false, true] = List.replicate 1 1 ++ [0] :=
  (rollEpisode_spec [false, true]).2.2.2.1 1 (by decide) (by decide)
    (fun j hj => by
      interval_cases j
      decide)

/-! ### Gradient aggregator (part_000 lines 313-345) -/

/-- Broadcast multiplication of one episode's per-step gradient stack by
that episode's normalized reward vector
(`varGradients[g].mul(reshapedNormalizedRewards[g])`): step `t`'s
gradient is scaled elementwise by `rewards[t]`.  A per-step gradient for
one named parameter is modelled as its flattened component list. -/
def scaleEpisodeGradients {K : Type} [Field K]
    (rewards : List K) (grads : List (List K)) : List (List K) :=
  List.zipWith (fun r g => g.map (fun x => x * r)) rewards grads

/-- Pointwise mean over the leading (step) axis, as computed by
`tf.mean(-, 0)` on the concatenated gradient stack. -/
def meanAxis0 {K : Type} [Field K] : List (List K) → List K
  | [] => []
  | r :: rest =>
      (List.range r.length).map
        (fun k => ((r :: rest).map (fun row => row.getD k 0)).sum /
          ((r :: rest).length : K))

/-- `scaleAndAverageGradients` for one named parameter: stack each
episode's per-step gradient snapshots (step axis first), broadcast-
multiply by that episode's normalized rewards, concatenate all episodes
along the step axis (`tf.concat(varGradients, 0)`) and take the mean over
that axis. -/
def scaleAndAverageGradients {K : Type} [Field K]
    (allGradients : List (List (List K))) (normalizedRewards : List (List K)) :
    List K :=
  meanAxis0 (List.zipWith scaleEpisodeGradients normalizedRewards allGradients).flatten

lemma map_range_getD {K : Type} [Field K] (l : List K) :
    (List.range l.length).map (fun k => l.getD k 0) = l := by
  apply List.ext_getElem
  · simp
  · intro i h1 h2
    simp only [List.getElem_map, List.getElem_range]
    exact List.getD_eq_getElem l 0 h2

/-- C8.  For a round with a single episode of a single step, the
aggregated gradient for a parameter is exactly `advantage[0]` times that
parameter's single gradient snapshot: the stack/broadcast/concat/mean
pipeline reduces to the identity on a one-element step axis. -/
theorem scaleAndAverageGradients_single (g : List ℚ) (r : ℚ) :
    scaleAndAverageGradients [[g]] [[r]] = g.map (fun x => r * x) := by
  simp only [scaleAndAverageGradients, scaleEpisodeGradients,
    List.zipWith_cons_cons, List.zipWith_nil_right, List.zipWith_nil_left,
    List.flatten, List.append_nil]
  rw [meanAxis0]
  simp only [List.map_cons, List.map_nil, List.sum_cons, List.sum_nil,
    List.length_cons, List.length_nil, add_zero, zero_add, Nat.cast_one,
    div_one]
  rw [map_range_getD (g.map (fun x => x * r))]
  simp [mul_comm]

/-! ### Cart-pole physics simulator (src/cart-pole/ui.ts, `CartPole`) -/

/-- The four control-theory state variables of the cart-pole system. -/
structure CartPoleState where
  x : ℝ
  xDot : ℝ
  theta : ℝ
  thetaDot : ℝ

namespace CartPole

noncomputable section

/-- Gravitational acceleration (constructor, ui.ts line 381). -/
def gravity : ℝ := 9.8

/-- Mass of the cart. -/
def massCart : ℝ := 1.0

/-- Mass of the pole. -/
def massPole : ℝ := 0.1

/-- Combined mass of cart and pole. -/
def totalMass : ℝ := massCart + massPole

/-- Half-length of the pole. -/
def poleHalfLength : ℝ := 0.5

/-- Pole moment, `massPole * length`. -/
def poleMoment : ℝ := massPole * poleHalfLength

/-- Magnitude of the control force. -/
def forceMag : ℝ := 10.0

/-- Seconds between state updates. -/
def tau : ℝ := 0.02

/-- Cart-position failure threshold. -/
def xThreshold : ℝ := 2.4

/-- Pole-angle failure threshold, `(12 / 360) * 2 * Math.PI`. -/
def thetaThreshold : ℝ := 12 / 360 * 2 * Real.pi

/-- Failure test `CartPole.isDone` (ui.ts lines 462-469): the position or
the angle has left its bound, with strict comparisons on both sides. -/
def isDone (s : CartPoleState) : Prop :=
  s.x < -xThreshold ∨ s.x > xThreshold ∨
    s.theta < -thetaThreshold ∨ s.theta > thetaThreshold

/-- State transition of `CartPole.update` (ui.ts lines 430-452): a force
of fixed magnitude in the direction of `action`'s sign
(`action > 0 ? forceMag : -forceMag`), the closed-form cart-pole
accelerations, and one explicit-Euler step of length `tau`.  The function
is total: it never throws. -/
def update (s : CartPoleState) (action : ℝ) : CartPoleState :=
  let force := if action > 0 then forceMag else -forceMag
  let cosTheta := Real.cos s.theta
  let sinTheta := Real.sin s.theta
  let temp := (force + poleMoment * s.thetaDot * s.thetaDot * sinTheta) / totalMass
  let thetaAcc := (gravity * sinTheta - cosTheta * temp) /
    (poleHalfLength * (4 / 3 - massPole * cosTheta * cosTheta / totalMass))
  let xAcc := temp - poleMoment * thetaAcc * cosTheta / totalMass
  { x := s.x + tau * s.xDot
    xDot := s.xDot + tau * xAcc
    theta := s.theta + tau * s.thetaDot
    thetaDot := s.thetaDot + tau * thetaAcc }

/-- The boolean returned by `CartPole.update`: the failure test applied to
the post-step state (`return this.isDone()` after the mutation). -/
def updateDone (s : CartPoleState) (action : ℝ) : Prop :=
  isDone (update s action)

/-- Trajectory of states visited by feeding a sequence of actions to
`update`, starting from `s` (each entry is the state after the
corresponding action; the per-step done flags are `isDone` of these). -/
def trajectory (s : CartPoleState) : List ℝ → List CartPoleState
  | [] => []
  | a :: rest => update s a :: trajectory (update s a) rest

end

lemma thetaThreshold_pos : 0 < thetaThreshold := by
  have h := Real.pi_pos
  rw [thetaThreshold]
  positivity

lemma isDone_iff_abs (s : CartPoleState) :
    isDone s ↔ xThreshold < |s.x| ∨ thetaThreshold < |s.theta| := by
  rw [isDone, lt_abs, lt_abs]
  constructor
  · rintro (h | h | h | h)
    · exact Or.inl (Or.inr (by linarith))
    · exact Or.inl (Or.inl h)
    · exact Or.inr (Or.inr (by linarith))
    · exact Or.inr (Or.inl h)
  · rintro ((h | h) | (h | h))
    · exact Or.inr (Or.inl h)
    · exact Or.inl (by linarith)
    · exact Or.inr (Or.inr (Or.inr h))
    · exact Or.inr (Or.inr (Or.inl (by linarith)))

end CartPole

/-- C4.  `CartPole.update` applies a force whose direction depends only on
whether `action > 0` (any two positive actions give the same step, as do
any two non-positive ones), advances the position and angle by one
explicit-Euler step of length `tau = 0.02`, and the returned flag is true
exactly when the post-step position or angle strictly exceeds its fixed
bound.  The Lean function is total, matching "never throws and always
returns a boolean". -/
theorem cartPole_update_spec (s : CartPoleState) (a b : ℝ) :
    (0 < a → 0 < b → CartPole.update s a = CartPole.update s b) ∧
    (a ≤ 0 → b ≤ 0 → CartPole.update s a = CartPole.update s b) ∧
    (CartPole.update s a).x = s.x + CartPole.tau * s.xDot ∧
    (CartPole.update s a).theta = s.theta + CartPole.tau * s.thetaDot ∧
    (CartPole.updateDone s a ↔
      CartPole.xThreshold < |(CartPole.update s a).x| ∨
      CartPole.thetaThreshold < |(CartPole.update s a).theta|) := by
  refine ⟨?_, ?_, ?_, ?_, ?_⟩
  · intro ha hb
    simp [CartPole.update, ha, hb]
  · intro ha hb
    simp [CartPole.update, not_lt.mpr ha, not_lt.mpr hb]
  · simp [CartPole.update]
  · simp [CartPole.update]
  · exact CartPole.isDone_iff_abs (CartPole.update s a)

/-- Witness for C4 at the state `(0, 0, 0, 0)` and actions `1`, `2`. -/
theorem cartPole_update_spec_witness :
    CartPole.update ⟨0, 0, 0, 0⟩ 1 = CartPole.update ⟨0, 0, 0, 0⟩ 2 :=
  (cartPole_update_spec ⟨0, 0, 0, 0⟩ 1 2).1 (by norm_num) (by norm_num)

/-- C9.  The simulator's step is deterministic: the trajectory is a
function of the initial state and the action sequence alone — equal
states and equal action prefixes yield equal trajectory prefixes, and
equal action sequences yield equal trajectories and equal done flags.
No randomness enters outside `setRandomState`. -/
theorem cartPole_trajectory_deterministic (s₁ s₂ : CartPoleState)
    (acts₁ acts₂ : List ℝ) (hs : s₁ = s₂) :
    (∀ n, acts₁.take n = acts₂.take n →
      (CartPole.trajectory s₁ acts₁).take n =
        (CartPole.trajectory s₂ acts₂).take n) ∧
    (acts₁ = acts₂ →
      CartPole.trajectory s₁ acts₁ = CartPole.trajectory s₂ acts₂ ∧
      (CartPole.trajectory s₁ acts₁).map CartPole.isDone =
        (CartPole.trajectory s₂ acts₂).map CartPole.isDone) := by
  subst hs
  refine ⟨?_, ?_⟩
  · intro n
    induction n generalizing s₁ acts₁ acts₂ with
    | zero => intro _; simp
    | succ m ih =>
        intro htake
        cases acts₁ with
        | nil =>
            cases acts₂ with
            | nil => rfl
            | cons b t₂ => simp at htake
        | cons a t₁ =>
            cases acts₂ with
            | nil => simp at htake
            | cons b t₂ =>
                simp only [List.take_succ_cons, List.cons.injEq] at htake
                obtain ⟨hab, ht⟩ := htake
                subst hab
                simp only [CartPole.trajectory, List.take_succ_cons,
                  List.cons.injEq]
                exact ⟨trivial, ih _ t₁ t₂ ht⟩
  · rintro rfl
    exact ⟨rfl, rfl⟩

/-- Witness for C9: identical initial states and a shared one-action
prefix of two different action sequences give the same first trajectory
entry. -/
theorem cartPole_trajectory_deterministic_witness :
    (CartPole.trajectory ⟨0, 0, 0, 0⟩ [1, -1]).take 1 =
      (CartPole.trajectory ⟨0, 0, 0, 0⟩ [1, 2]).take 1 :=
  (cartPole_trajectory_deterministic ⟨0, 0, 0, 0⟩ ⟨0, 0, 0, 0⟩
    [1, -1] [1, 2] rfl).1 1 rfl

/-- C10.  The failure test uses strict inequalities: done holds exactly
when the position or angle strictly exceeds its threshold, so a state
sitting exactly at `±xThreshold` (angle within bounds) or exactly at
`±thetaThreshold` (position within bounds) is reported as not done. -/
theorem cartPole_isDone_strict (s : CartPoleState) :
    (CartPole.isDone s ↔
      CartPole.xThreshold < |s.x| ∨ CartPole.thetaThreshold < |s.theta|) ∧
    (|s.x| = CartPole.xThreshold → |s.theta| ≤ CartPole.thetaThreshold →
      ¬ CartPole.isDone s) ∧
    (|s.theta| = CartPole.thetaThreshold → |s.x| ≤ CartPole.xThreshold →
      ¬ CartPole.isDone s) := by
  refine ⟨CartPole.isDone_iff_abs s, ?_, ?_⟩
  · intro hx hθ hdone
    rcases (CartPole.isDone_iff_abs s).mp hdone with h | h
    · rw [hx] at h; exact lt_irrefl _ h
    · exact absurd hθ (not_le.mpr h)
  · intro hθ hx hdone
    rcases (CartPole.isDone_iff_abs s).mp hdone with h | h
    · exact absurd hx (not_le.mpr h)
    · rw [hθ] at h; exact lt_irrefl _ h

/-- Witness for C10: the state with the cart exactly at `xThreshold` and
everything else at zero is not done. -/
theorem cartPole_isDone_strict_witness :
    ¬ CartPole.isDone ⟨CartPole.xThreshold, 0, 0, 0⟩ := by
  have h1 : |(CartPole.xThreshold : ℝ)| = CartPole.xThreshold :=
    abs_of_nonneg (by rw [CartPole.xThreshold]; norm_num)
  have h2 : |(0 : ℝ)| ≤ CartPole.thetaThreshold := by
    simp only [abs_zero]
    exact le_of_lt CartPole.thetaThreshold_pos
  exact (cartPole_isDone_strict ⟨CartPole.xThreshold, 0, 0, 0⟩).2.1 h1 h2

/-! ### SaveablePolicyNetwork construction (ui.ts lines 583-599)

The constructor destructures `(layersModel?, sizes?)` and forwards to the
superclass: `if (layersModel !== undefined) super(layersModel-branch)
else if (sizes !== undefined) super(sizes-branch)` — and otherwise falls
through with no superclass call, which in JavaScript makes the
construction fail with an implicit ReferenceError (not an explicit
configuration check).  Models are abstracted by an identifier, widths by
their list. -/

/-- The policy network produced by construction: either wrapped from a
previously saved `tf.LayersModel` or built fresh from hidden-layer
widths. -/
inductive PolicyNetSource : Type
  | fromModel (modelId : ℕ)
  | fromSizes (hiddenLayerSizes : List ℕ)
  deriving DecidableEq, Repr

/-- The `SaveablePolicyNetwork` constructor.  `Except.error` marks a
construction that does not complete (the no-superclass-call fall-through);
note that no branch checks for both arguments being present. -/
def saveableConstruct (layersModel : Option ℕ) (sizes : Option (List ℕ)) :
    Except String PolicyNetSource :=
  match layersModel with
  | some m => Except.ok (PolicyNetSource.fromModel m)
  | none =>
      match sizes with
      | some s => Except.ok (PolicyNetSource.fromSizes s)
      | none => Except.error "no superclass constructor invoked"

/-- Truth value of an `Except` being a success. -/
def exceptOk {ε α : Type} : Except ε α → Bool
  | Except.ok _ => true
  | Except.error _ => false

/-- Counterexample to C5: constructing with a saved model AND widths at
once succeeds (the claim says it must fail fast), silently using the
saved model. -/
theorem saveableConstruct_both_no_error :
    exceptOk (saveableConstruct (some 0) (some [8])) = true := rfl

/-- C5 (amended).  Constructing with neither widths nor a saved model
fails at construction time (no superclass branch is taken), but
constructing with both at once does not fail: the saved model silently
takes precedence and the widths are ignored. -/
theorem saveableConstruct_spec (m : ℕ) (s : List ℕ) :
    exceptOk (saveableConstruct none none) = false ∧
    saveableConstruct (some m) (some s) =
      Except.ok (PolicyNetSource.fromModel m) ∧
    saveableConstruct (some m) none =
      Except.ok (PolicyNetSource.fromModel m) ∧
    saveableConstruct none (some s) =
      Except.ok (PolicyNetSource.fromSizes s) :=
  ⟨rfl, rfl, rfl, rfl⟩

/-! ### Training-configuration validation (ui.ts lines 196-226)

The click handler parses five fields and throws on
`!(trainIterations > 0)`, `!(gamesPerIteration > 0)`,
`!(maxStepsPerGame > 1)` and `!(discountRate > 0 && discountRate < 1)` in
that order; the learning rate is parsed on line 215 with NO validation
and handed to `tf.train.adam`.  A failed `parseInt`/`parseFloat` yields
`NaN`, whose comparisons are all false, so it also throws for the four
checked fields; `NaN` is modelled as `none`. -/

/-- Boundary validation of the train-button handler.  Returns the
validated integers and discount rate; the learning rate is passed through
unexamined (still possibly `none` = NaN). -/
def validateTrainInputs (trainIterations gamesPerIteration maxStepsPerGame : Option ℤ)
    (discountRate learningRate : Option ℚ) :
    Except String (ℤ × ℤ × ℤ × ℚ × Option ℚ) :=
  match trainIterations with
  | none => Except.error "Invalid number of iterations"
  | some ti =>
      if ti ≤ 0 then Except.error "Invalid number of iterations"
      else
        match gamesPerIteration with
        | none => Except.error "Invalid number of games per iteration"
        | some g =>
            if g ≤ 0 then Except.error "Invalid number of games per iteration"
            else
              match maxStepsPerGame with
              | none => Except.error "Invalid max steps per game"
              | some ms =>
                  if ms ≤ 1 then Except.error "Invalid max steps per game"
                  else
                    match discountRate with
                    | none => Except.error "Invalid discount rate"
                    | some d =>
                        if d ≤ 0 ∨ 1 ≤ d then Except.error "Invalid discount rate"
                        else Except.ok (ti, g, ms, d, learningRate)

lemma validateTrainInputs_isOk_iff
    (iters games maxSteps : Option ℤ) (disc lr : Option ℚ) :
    exceptOk (validateTrainInputs iters games maxSteps disc lr) = true ↔
      (∃ ti, iters = some ti ∧ 0 < ti) ∧
      (∃ g, games = some g ∧ 0 < g) ∧
      (∃ ms, maxSteps = some ms ∧ 1 < ms) ∧
      (∃ d, disc = some d ∧ 0 < d ∧ d < 1) := by
  rcases iters with _ | ti
  · simp [validateTrainInputs, exceptOk]
  by_cases hti : ti ≤ 0
  · have hti2 : ¬ (0 < ti) := not_lt.mpr hti
    simp [validateTrainInputs, exceptOk, hti, hti2]
  have hti2 : 0 < ti := not_le.mp hti
  rcases games with _ | g
  · simp [validateTrainInputs, exceptOk, hti]
  by_cases hg : g ≤ 0
  · have hg2 : ¬ (0 < g) := not_lt.mpr hg
    simp [validateTrainInputs, exceptOk, hti, hg, hg2]
  have hg2 : 0 < g := not_le.mp hg
  rcases maxSteps with _ | ms
  · simp [validateTrainInputs, exceptOk, hti, hg]
  by_cases hms : ms ≤ 1
  · have hms2 : ¬ (1 < ms) := not_lt.mpr hms
    simp [validateTrainInputs, exceptOk, hti, hg, hms, hms2]
  have hms2 : 1 < ms := not_le.mp hms
  rcases disc with _ | d
  · simp [validateTrainInputs, exceptOk, hti, hg, hms]
  by_cases hd : d ≤ 0 ∨ 1 ≤ d
  · have hd2 : ¬ (0 < d ∧ d < 1) := by
      rcases hd with hd | hd
      · exact fun hc => absurd hc.1 (not_lt.mpr hd)
      · exact fun hc => absurd hc.2 (not_lt.mpr hd)
    simp [validateTrainInputs, exceptOk, hti, hg, hms, hd, hd2]
  have hd2 : 0 < d ∧ d < 1 := by
    rcases not_or.mp hd with ⟨h1, h2⟩
    exact ⟨not_le.mp h1, not_le.mp h2⟩
  simp [validateTrainInputs, exceptOk, hti, hg, hms, hd, hti2, hg2, hms2,
    hd2.1, hd2.2]

/-- Counterexample to C6: a negative learning rate sails through
validation — the handler never checks it, so training begins with an
invalid learning rate instead of failing with a configuration error. -/
theorem validateTrainInputs_accepts_bad_learning_rate :
    validateTrainInputs (some 1) (some 1) (some 2) (some (1 / 2)) (some (-1)) =
      Except.ok (1, 1, 2, 1 / 2, some (-1)) := by
  norm_num [validateTrainInputs]

/-- C6 (amended).  The iteration count, games per iteration, maximum
steps per game and discount rate are each validated at the boundary (a
missing/NaN or out-of-range value fails with a descriptive error before
any simulation work), but the learning rate is parsed and passed through
with no validation at all. -/
theorem validateTrainInputs_spec
    (iters games maxSteps : Option ℤ) (disc lr : Option ℚ) :
    ((iters = none ∨ ∃ v, iters = some v ∧ v ≤ 0) →
      exceptOk (validateTrainInputs iters games maxSteps disc lr) = false) ∧
    ((games = none ∨ ∃ v, games = some v ∧ v ≤ 0) →
      exceptOk (validateTrainInputs iters games maxSteps disc lr) = false) ∧
    ((maxSteps = none ∨ ∃ v, maxSteps = some v ∧ v ≤ 1) →
      exceptOk (validateTrainInputs iters games maxSteps disc lr) = false) ∧
    ((disc = none ∨ ∃ v, disc = some v ∧ (v ≤ 0 ∨ 1 ≤ v)) →
      exceptOk (validateTrainInputs iters games maxSteps disc lr) = false) ∧
    (∀ ti g ms d, iters = some ti → 0 < ti → games = some g → 0 < g →
      maxSteps = some ms → 1 < ms → disc = some d → 0 < d → d < 1 →
      validateTrainInputs iters games maxSteps disc lr =
        Except.ok (ti, g, ms, d, lr)) := by
  refine ⟨?_, ?_, ?_, ?_, ?_⟩
  · intro h
    cases hok : exceptOk (validateTrainInputs iters games maxSteps disc lr) with
    | false => rfl
    | true =>
        exfalso
        obtain ⟨⟨ti, hti, htipos⟩, -, -, -⟩ :=
          (validateTrainInputs_isOk_iff iters games maxSteps disc lr).mp hok
        rcases h with rfl | ⟨v, rfl, hv⟩
        · exact Option.noConfusion hti
        · injection hti with hvt
          omega
  · intro h
    cases hok : exceptOk (validateTrainInputs iters games maxSteps disc lr) with
    | false => rfl
    | true =>
        exfalso
        obtain ⟨-, ⟨g, hg, hgpos⟩, -, -⟩ :=
          (validateTrainInputs_isOk_iff iters games maxSteps disc lr).mp hok
        rcases h with rfl | ⟨v, rfl, hv⟩
        · exact Option.noConfusion hg
        · injection hg with hvt
          omega
  · intro h
    cases hok : exceptOk (validateTrainInputs iters games maxSteps disc lr) with
    | false => rfl
    | true =>
        exfalso
        obtain ⟨-, -, ⟨ms, hms, hmspos⟩, -⟩ :=
          (validateTrainInputs_isOk_iff iters games maxSteps disc lr).mp hok
        rcases h with rfl | ⟨v, rfl, hv⟩
        · exact Option.noConfusion hms
        · injection hms with hvt
          omega
  · intro h
    cases hok : exceptOk (validateTrainInputs iters games maxSteps disc lr) with
    | false => rfl
    | true =>
        exfalso
        obtain ⟨-, -, -, ⟨d, hd, hd0, hd1⟩⟩ :=
          (validateTrainInputs_isOk_iff iters games maxSteps disc lr).mp hok
        rcases h with rfl | ⟨v, rfl, hv⟩
        · exact Option.noConfusion hd
        · injection hd with hvt
          subst hvt
          rcases hv with hv | hv
          · exact absurd hd0 (not_lt.mpr hv)
          · exact absurd hd1 (not_lt.mpr hv)
  · rintro ti g ms d rfl hti rfl hg rfl hms rfl hd0 hd1
    have h1 : ¬ (ti ≤ 0) := not_le.mpr hti
    have h2 : ¬ (g ≤ 0) := not_le.mpr hg
    have h3 : ¬ (ms ≤ 1) := not_le.mpr hms
    have h4 : ¬ (d ≤ 0 ∨ 1 ≤ d) :=
      not_or.mpr ⟨not_le.mpr hd0, not_le.mpr hd1⟩
    simp [validateTrainInputs, h1, h2, h3, h4]

/-- Witness for C6 (amended) at concrete valid values and an unchecked
learning rate. -/
theorem validateTrainInputs_spec_witness :
    validateTrainInputs (some 2) (some 3) (some 5) (some (9 / 10)) none =
      Except.ok (2, 3, 5, 9 / 10, none) :=
  (validateTrainInputs_spec (some 2) (some 3) (some 5) (some (9 / 10))
    none).2.2.2.2 2 3 5 (9 / 10) rfl (by norm_num) rfl (by norm_num) rfl
    (by norm_num) rfl (by norm_num) (by norm_num)

/-! ### Cross-entropy labels (part_000 lines 163-175,
`getGradientsAndSaveActions`)

The loss fed to `tf.variableGrads` is
`sigmoidCrossEntropy(labels, logits)` with
`labels = tf.sub(1, tensor(actions))`: the label for each observation is
`1 - action`, not the action itself. -/

/-- The labels constructed from the sampled actions:
`tf.sub(1, currentActions_)` elementwise. -/
def crossEntropyLabels (actions : List ℚ) : List ℚ :=
  actions.map (fun a => 1 - a)

/-- Counterexample to C7: for the sampled action `1`, the label fed to
the binary cross-entropy loss is `0`, not the action itself. -/
theorem crossEntropyLabels_not_actions :
    crossEntropyLabels [1] ≠ [1] := by
  norm_num [crossEntropyLabels]

/-- C7 (amended).  The target label fed to the binary cross-entropy loss
for each observation is `1` minus the sampled action — for 0/1 actions,
the complement indicator — rather than the sampled action itself. -/
theorem crossEntropyLabels_spec (actions : List ℚ)
    (h : ∀ a ∈ actions, a = 0 ∨ a = 1) :
    crossEntropyLabels actions =
      actions.map (fun a => if a = 0 then 1 else 0) := by
  rw [crossEntropyLabels]
  apply List.map_congr_left
  intro a ha
  rcases h a ha with rfl | rfl <;> norm_num

/-- Witness for C7 (amended) on the action batch `[0, 1]`. -/
theorem crossEntropyLabels_spec_witness :
    crossEntropyLabels [0, 1] = [(1 : ℚ), 0] := by
  have hmem : ∀ a ∈ [(0 : ℚ), 1], a = 0 ∨ a = 1 := by
    intro a ha
    rcases List.mem_cons.mp ha with rfl | ha2
    · exact Or.inl rfl
    · rcases List.mem_cons.mp ha2 with rfl | ha3
      · exact Or.inr rfl
      · exact absurd ha3 (List.not_mem_nil a)
  have h := crossEntropyLabels_spec [0, 1] hmem
  rw [h]
  norm_num

end CartPoleRL
